import Mathlib

/-!
Shallow embedding of `src/model.py` (credit-scoring-compliance-demo).

Numeric values are modelled as rationals (`ℚ`) for the linear part of the
computation and as reals (`ℝ`) once the sigmoid `1 / (1 + exp (-x * 2))`
enters; Python floats are idealised as exact real arithmetic.  Python dicts
of features are modelled as association lists (`List (String × ℚ)`) whose
iteration order is the insertion order, matching Python 3 dict semantics.
-/

namespace CreditScoring

/-- The fixed feature enumeration, `CreditScoringModel.FEATURES`
(model.py lines 44-53). -/
def FEATURES : List String :=
  ["debt_to_income", "credit_utilization", "payment_history_score",
   "account_age_months", "inquiry_count_6mo", "income_stability",
   "employment_length", "existing_accounts"]

/-- The constant `CreditScoringModel.THRESHOLD` (model.py line 56). -/
def THRESHOLD : ℚ := 1/2

/-- The constant `CreditScoringModel.VERSION` (model.py line 40). -/
def VERSION : String := "2.1.0"

/-- A feature dictionary: `Dict[str, float]` as an association list in
insertion order; `lookup` is dict indexing. -/
def FeatureSet : Type := List (String × ℚ)

/-- The weight table held in `self.model`: a dict of per-feature weights in
insertion order, plus the scalar intercept (model.py lines 74-86). -/
structure Model where
  weights : List (String × ℚ)
  intercept : ℚ

/-- The demo weight table built by `_create_demo_model` (model.py lines 71-86). -/
def demoModel : Model where
  weights :=
    [("debt_to_income", -35/100), ("credit_utilization", -25/100),
     ("payment_history_score", 30/100), ("account_age_months", 15/100),
     ("inquiry_count_6mo", -10/100), ("income_stability", 20/100),
     ("employment_length", 10/100), ("existing_accounts", 5/100)]
  intercept := 1/2

/-- The normalization step shared by `_calculate_score` (line 137) and
`_generate_explanation` (line 151):
`features[feature] / 100.0 if features[feature] > 1 else features[feature]`. -/
def normalize (v : ℚ) : ℚ := if v > 1 then v / 100 else v

/-- Python `round(x, 4)` rounds half to even (banker's rounding); this is the
integer-valued round-half-to-even. -/
def pyRound {α : Type} [LinearOrderedField α] [FloorRing α] (x : α) : ℤ :=
  if x - ⌊x⌋ < 1/2 then ⌊x⌋
  else if 1/2 < x - ⌊x⌋ then ⌊x⌋ + 1
  else if ⌊x⌋ % 2 = 0 then ⌊x⌋ else ⌊x⌋ + 1

/-- Python `round(x, 4)`: round to 4 decimal digits, half to even. -/
def round4 {α : Type} [LinearOrderedField α] [FloorRing α] (x : α) : α :=
  (pyRound (x * 10000) : α) / 10000

/-- The missing-feature set of `_validate_features` (model.py line 124):
`set(self.FEATURES) - set(features.keys())`. -/
def missingFeatures (features : FeatureSet) : Finset String :=
  FEATURES.toFinset \ (features.map Prod.fst).toFinset

/-- The `ValueError` raised by `_validate_features`, carrying the missing
feature names (model.py line 126). -/
structure ValidationError where
  missing : Finset String
deriving DecidableEq

/-- Embeds `CreditScoringModel._validate_features` (model.py lines 122-126):
`none` means validation passed, `some e` means `ValueError` was raised. -/
def validate_features (features : FeatureSet) : Option ValidationError :=
  if missingFeatures features = ∅ then none else some ⟨missingFeatures features⟩

/-- The pre-sigmoid running sum of `_calculate_score` (model.py lines 133-138):
start from the intercept and, for each weight-table entry whose feature is
present, add `weight * normalized`. -/
def linear_sum (m : Model) (features : FeatureSet) : ℚ :=
  m.weights.foldl
    (fun s fw =>
      match features.lookup fw.1 with
      | some v => s + fw.2 * normalize v
      | none => s)
    m.intercept

/-- Embeds `CreditScoringModel._calculate_score` (model.py lines 128-142):
the sigmoid `1 / (1 + np.exp(-score * 2))` of the linear sum. -/
noncomputable def calculate_score (m : Model) (features : FeatureSet) : ℝ :=
  1 / (1 + Real.exp (-(linear_sum m features : ℝ) * 2))

/-- The per-feature unrounded contributions `weight * normalized` of
`_generate_explanation` (model.py lines 149-152), in weight-table order. -/
def contributions_unrounded (m : Model) (features : FeatureSet) :
    List (String × ℚ) :=
  m.weights.filterMap fun fw =>
    (features.lookup fw.1).map fun v => (fw.1, fw.2 * normalize v)

/-- The sort key of model.py lines 156-160: `sorted(..., key=lambda x: abs(x[1]),
reverse=True)` places `a` before `b` when `|b.2| ≤ |a.2|`. -/
def contributionLE (a b : String × ℚ) : Bool := decide (|b.2| ≤ |a.2|)

/-- Embeds `CreditScoringModel._generate_explanation` (model.py lines 144-162):
round each contribution to 4 digits, then stable-sort by descending absolute
value (Python `sorted` is a stable merge sort). -/
def generate_explanation (m : Model) (features : FeatureSet) :
    List (String × ℚ) :=
  ((contributions_unrounded m features).map fun p => (p.1, round4 p.2)).mergeSort
    contributionLE

/-- The decision of `predict` (model.py line 105):
`'approved' if score >= self.THRESHOLD else 'denied'`. -/
noncomputable def decisionOf (score : ℝ) : String :=
  if score ≥ (THRESHOLD : ℝ) then "approved" else "denied"

/-- The confidence of `predict` (model.py lines 108-109):
`min(abs(score - THRESHOLD) / THRESHOLD, 1.0)`. -/
noncomputable def confidenceOf (score : ℝ) : ℝ :=
  min (|score - (THRESHOLD : ℝ)| / (THRESHOLD : ℝ)) 1

/-- The `CreditPrediction` dataclass (model.py lines 15-27); the wall-clock
timestamp field is omitted (it carries no behaviour the claims touch). -/
structure CreditPrediction where
  score : ℝ
  decision : String
  confidence : ℝ
  explanation : List (String × ℚ)
  model_version : String

/-- Embeds `CreditScoringModel.predict` (model.py lines 88-120): validate, score,
decide, compute confidence, explain; score and confidence are rounded to
4 digits when the `CreditPrediction` is built (lines 114-120). -/
noncomputable def predict (m : Model) (features : FeatureSet) :
    Except ValidationError CreditPrediction :=
  match validate_features features with
  | some e => Except.error e
  | none =>
      let score := calculate_score m features
      Except.ok
        { score := round4 score
          decision := decisionOf score
          confidence := round4 (confidenceOf score)
          explanation := generate_explanation m features
          model_version := VERSION }

/-- The constant `HumanOversight.REVIEW_THRESHOLD_LOW` (model.py line 184). -/
def REVIEW_THRESHOLD_LOW : ℚ := 2/5

/-- The constant `HumanOversight.REVIEW_THRESHOLD_HIGH` (model.py line 185). -/
def REVIEW_THRESHOLD_HIGH : ℚ := 3/5

/-- Embeds `HumanOversight.requires_review` (model.py lines 187-203): borderline
scores first, then low confidence, else no review. -/
noncomputable def requires_review (p : CreditPrediction) : Bool × String :=
  if (REVIEW_THRESHOLD_LOW : ℝ) ≤ p.score ∧ p.score ≤ (REVIEW_THRESHOLD_HIGH : ℝ) then
    (true, "Borderline score requires human review")
  else if p.confidence < (3/10 : ℝ) then
    (true, "Low confidence prediction")
  else
    (false, "")

/-- The sample feature dict of the demo block (model.py lines 236-245). -/
def sampleFeatures : FeatureSet :=
  [("debt_to_income", 35), ("credit_utilization", 45),
   ("payment_history_score", 85), ("account_age_months", 48),
   ("inquiry_count_6mo", 2), ("income_stability", 4/5),
   ("employment_length", 36), ("existing_accounts", 5)]

/-! ## State-passing embedding of the pipeline

`predict` only ever reads the feature dict (`feature in features`,
`features[feature]`, `features.keys()` — model.py lines 124, 135, 137, 151);
it contains no statement that writes to it.  To make that frame property a
theorem rather than a remark, the pipeline is re-embedded in state-passing
style: every dict access goes through an explicit primitive that returns
the dict state after the access (unchanged, per Python semantics for these
read operations), and the dict state is threaded through every step. -/

/-- Python `f in d`: membership test, a read-only dict access. -/
def dictContains (fs : FeatureSet) (f : String) : Bool × FeatureSet :=
  ((fs.lookup f).isSome, fs)

/-- Python `d[f]`: indexing, a read-only dict access (always guarded by a
membership test in model.py, so the default value is never exposed). -/
def dictGet (fs : FeatureSet) (f : String) : ℚ × FeatureSet :=
  ((fs.lookup f).getD 0, fs)

/-- Python `d.keys()`: reading the key view, a read-only dict access. -/
def dictKeys (fs : FeatureSet) : List String × FeatureSet :=
  (fs.map Prod.fst, fs)

/-- One iteration of the scoring loop (model.py lines 134-138) in
state-passing style. -/
def scoreStep (acc : ℚ × FeatureSet) (fw : String × ℚ) : ℚ × FeatureSet :=
  let mem := dictContains acc.2 fw.1
  if mem.1 then
    let v := dictGet mem.2 fw.1
    (acc.1 + fw.2 * normalize v.1, v.2)
  else (acc.1, mem.2)

/-- State-passing `_calculate_score` up to the sigmoid: the pre-sigmoid
linear sum together with the dict state after the loop. -/
def calculate_scoreSt (m : Model) (fs0 : FeatureSet) : ℚ × FeatureSet :=
  m.weights.foldl scoreStep (m.intercept, fs0)

/-- One iteration of the explanation loop (model.py lines 149-153) in
state-passing style. -/
def explStep (acc : List (String × ℚ) × FeatureSet) (fw : String × ℚ) :
    List (String × ℚ) × FeatureSet :=
  let mem := dictContains acc.2 fw.1
  if mem.1 then
    let v := dictGet mem.2 fw.1
    (acc.1 ++ [(fw.1, round4 (fw.2 * normalize v.1))], v.2)
  else (acc.1, mem.2)

/-- State-passing `_generate_explanation`. -/
def generate_explanationSt (m : Model) (fs0 : FeatureSet) :
    List (String × ℚ) × FeatureSet :=
  let pairs := m.weights.foldl explStep (([] : List (String × ℚ)), fs0)
  (pairs.1.mergeSort contributionLE, pairs.2)

/-- State-passing `_validate_features`. -/
def validate_featuresSt (fs0 : FeatureSet) :
    Option ValidationError × FeatureSet :=
  let ks := dictKeys fs0
  let missing := FEATURES.toFinset \ ks.1.toFinset
  (if missing = ∅ then none else some ⟨missing⟩, ks.2)

/-- State-passing `predict`: validation, scoring, decision, confidence and
explanation, with the dict state threaded through every stage. -/
noncomputable def predictSt (m : Model) (fs0 : FeatureSet) :
    Except ValidationError CreditPrediction × FeatureSet :=
  match validate_featuresSt fs0 with
  | (some e, fs1) => (Except.error e, fs1)
  | (none, fs1) =>
      let sr := calculate_scoreSt m fs1
      let score : ℝ := 1 / (1 + Real.exp (-(sr.1 : ℝ) * 2))
      let er := generate_explanationSt m sr.2
      (Except.ok
        { score := round4 score
          decision := decisionOf score
          confidence := round4 (confidenceOf score)
          explanation := er.1
          model_version := VERSION }, er.2)

/-- A deliberately incomplete feature dict: only one of the 8 required
features is supplied (used to exercise the validation failure path). -/
def incompleteFeatures : FeatureSet := [("debt_to_income", 1)]

/-- A concrete borderline prediction: score 0.4 sits in the review band and
its confidence 0.2 is also below the low-confidence threshold, so both
oversight rules could fire. -/
noncomputable def reviewSample : CreditPrediction where
  score := 2/5
  decision := "denied"
  confidence := 1/5
  explanation := []
  model_version := VERSION

/-! ## Helper lemmas -/

/-- Unfolding the scoring fold of model.py lines 133-138: the running sum
equals the starting accumulator plus the sum of the per-feature
contributions collected in weight-table order. -/
theorem foldl_contrib_eq (fs : FeatureSet) :
    ∀ (ws : List (String × ℚ)) (acc : ℚ),
      ws.foldl
        (fun s fw =>
          match fs.lookup fw.1 with
          | some v => s + fw.2 * normalize v
          | none => s)
        acc
      = acc + ((ws.filterMap fun fw =>
          (fs.lookup fw.1).map fun v => (fw.1, fw.2 * normalize v)).map
            Prod.snd).sum := by
  intro ws
  induction ws with
  | nil => intro acc; simp
  | cons fw ws ih =>
      intro acc
      cases h : fs.lookup fw.1 with
      | none => simp [List.foldl_cons, List.filterMap_cons, h, ih]
      | some v =>
          rw [List.foldl_cons, List.filterMap_cons, h]
          simp only [Option.map_some', List.map_cons, List.sum_cons, ih]
          ring

/-! ## Claim theorems -/

/-- Claim C1: for every FeatureSet containing all 8 required features, the
intercept plus the sum of the unrounded per-feature contributions of
`_generate_explanation` equals the pre-sigmoid linear sum of
`_calculate_score`: the explanation is an exact linear decomposition of the
logit. -/
theorem explanation_sum_decomposes_logit (m : Model) (fs : FeatureSet)
    (_h : missingFeatures fs = ∅) :
    m.intercept + ((contributions_unrounded m fs).map Prod.snd).sum
      = linear_sum m fs := by
  rw [linear_sum, foldl_contrib_eq fs m.weights m.intercept,
    contributions_unrounded]

theorem explanation_sum_decomposes_logit_witness :
    missingFeatures sampleFeatures = ∅ ∧
      demoModel.intercept
          + ((contributions_unrounded demoModel sampleFeatures).map
              Prod.snd).sum
        = linear_sum demoModel sampleFeatures :=
  ⟨by decide,
   explanation_sum_decomposes_logit demoModel sampleFeatures (by decide)⟩

/-- Claim C2 counterexample: the raw value -2 has magnitude greater than 1,
yet the normalizer passes it through unchanged instead of dividing by 100 —
the code's predicate on model.py line 137 is the signed comparison
`features[feature] > 1`, not a magnitude test. -/
theorem normalize_magnitude_counterexample :
    1 < |(-2 : ℚ)| ∧ normalize (-2) = -2 ∧ normalize (-2) ≠ -2 / 100 := by
  refine ⟨by norm_num, by norm_num [normalize], by norm_num [normalize]⟩

/-- Claim C2 (amended): the normalizer divides by 100 exactly when the raw
value itself is greater than 1 — a signed comparison, not a magnitude test,
so negative values are always passed through unchanged — and otherwise
passes the value through; in particular a raw value of exactly 1.0 is passed
through undivided. -/
theorem normalize_signed_rule (v : ℚ) :
    (1 < v → normalize v = v / 100) ∧ (v ≤ 1 → normalize v = v)
      ∧ normalize 1 = 1 := by
  refine ⟨fun h => ?_, fun h => ?_, by norm_num [normalize]⟩
  · simp [normalize, h]
  · simp [normalize, not_lt.mpr h]

theorem normalize_signed_rule_witness :
    normalize 2 = 2 / 100 ∧ normalize (-50) = -50 ∧ normalize 1 = 1 :=
  ⟨(normalize_signed_rule 2).1 (by norm_num),
   (normalize_signed_rule (-50)).2.1 (by norm_num),
   (normalize_signed_rule 1).2.2⟩

/-- Claim C8: scoring is a pure, deterministic function of the feature set
and the weight table — two calls with identical inputs return identical
scores, with no hidden state or randomness in the embedding. -/
theorem calculate_score_deterministic (m₁ m₂ : Model) (fs₁ fs₂ : FeatureSet)
    (hm : m₁ = m₂) (hfs : fs₁ = fs₂) :
    calculate_score m₁ fs₁ = calculate_score m₂ fs₂ := by
  rw [hm, hfs]

theorem calculate_score_deterministic_witness :
    calculate_score demoModel sampleFeatures
      = calculate_score demoModel sampleFeatures :=
  calculate_score_deterministic demoModel demoModel sampleFeatures
    sampleFeatures rfl rfl

/-- A FeatureSet with no missing features has a value for every required
feature name. -/
theorem lookup_isSome_of_valid {fs : FeatureSet}
    (h : missingFeatures fs = ∅) {f : String} (hf : f ∈ FEATURES) :
    (fs.lookup f).isSome := by
  rw [missingFeatures, Finset.sdiff_eq_empty_iff_subset] at h
  have hmem : f ∈ (fs.map Prod.fst).toFinset := h (List.mem_toFinset.mpr hf)
  rw [List.mem_toFinset, List.mem_map] at hmem
  obtain ⟨p, hp, rfl⟩ := hmem
  rw [List.lookup_isSome_iff]
  exact ⟨p, hp, by simp⟩

/-- When every weight-table feature has a value, the guarded collection of
contributions degenerates to a map over the weight table. -/
theorem filterMap_lookup_eq_map (fs : FeatureSet) :
    ∀ ws : List (String × ℚ), (∀ fw ∈ ws, (fs.lookup fw.1).isSome) →
      (ws.filterMap fun fw =>
        (fs.lookup fw.1).map fun v => (fw.1, fw.2 * normalize v))
      = ws.map fun fw =>
          (fw.1, fw.2 * normalize ((fs.lookup fw.1).getD 0)) := by
  intro ws
  induction ws with
  | nil => intro _; simp
  | cons fw ws ih =>
      intro h
      obtain ⟨v, hv⟩ :=
        Option.isSome_iff_exists.mp (h fw (List.mem_cons_self fw ws))
      rw [List.filterMap_cons, List.map_cons, hv]
      simp only [Option.map_some']
      rw [ih fun p hp => h p (List.mem_cons_of_mem fw hp)]
      simp [hv]

/-- Claim C3: for a FeatureSet containing all 8 required features (and a
weight table drawing its features from the required enumeration, as the demo
table does), the score is exactly the sigmoid `1 / (1 + e^(-2 * linear_sum))`
of the intercept-plus-weighted-sum, lies in [0, 1], and `predict` is the
layer that rounds it to 4 decimal digits — `_calculate_score` itself returns
full precision. -/
theorem score_is_sigmoid_of_linear_sum (m : Model) (fs : FeatureSet)
    (h : missingFeatures fs = ∅) (hw : ∀ fw ∈ m.weights, fw.1 ∈ FEATURES) :
    calculate_score m fs
        = 1 / (1 + Real.exp (-2 * (linear_sum m fs : ℝ)))
      ∧ linear_sum m fs
        = m.intercept + (m.weights.map fun fw =>
            fw.2 * normalize ((fs.lookup fw.1).getD 0)).sum
      ∧ 0 ≤ calculate_score m fs ∧ calculate_score m fs ≤ 1
      ∧ ∃ p, predict m fs = Except.ok p
          ∧ p.score = round4 (calculate_score m fs) := by
  have hexp : 0 < Real.exp (-(linear_sum m fs : ℝ) * 2) := Real.exp_pos _
  have hden : (0:ℝ) < 1 + Real.exp (-(linear_sum m fs : ℝ) * 2) := by
    linarith
  refine ⟨?_, ?_, ?_, ?_, ?_⟩
  · rw [calculate_score,
      show -((linear_sum m fs : ℚ) : ℝ) * 2
          = -2 * ((linear_sum m fs : ℚ) : ℝ) from by ring]
  · have hsome : ∀ fw ∈ m.weights, (fs.lookup fw.1).isSome :=
      fun fw hfw => lookup_isSome_of_valid h (hw fw hfw)
    rw [linear_sum, foldl_contrib_eq fs m.weights m.intercept,
      filterMap_lookup_eq_map fs m.weights hsome, List.map_map]
    rfl
  · rw [calculate_score]; positivity
  · rw [calculate_score, div_le_one hden]; linarith
  · have hv : validate_features fs = none := by
      rw [validate_features, if_pos h]
    have hpred : predict m fs = Except.ok
        { score := round4 (calculate_score m fs)
          decision := decisionOf (calculate_score m fs)
          confidence := round4 (confidenceOf (calculate_score m fs))
          explanation := generate_explanation m fs
          model_version := VERSION } := by
      simp only [predict, hv]
    exact ⟨_, hpred, rfl⟩

theorem score_is_sigmoid_witness :
    calculate_score demoModel sampleFeatures
        = 1 / (1 + Real.exp (-2 * (linear_sum demoModel sampleFeatures : ℝ)))
      ∧ linear_sum demoModel sampleFeatures
        = demoModel.intercept + (demoModel.weights.map fun fw =>
            fw.2 * normalize ((sampleFeatures.lookup fw.1).getD 0)).sum
      ∧ 0 ≤ calculate_score demoModel sampleFeatures
      ∧ calculate_score demoModel sampleFeatures ≤ 1
      ∧ ∃ p, predict demoModel sampleFeatures = Except.ok p
          ∧ p.score = round4 (calculate_score demoModel sampleFeatures) :=
  score_is_sigmoid_of_linear_sum demoModel sampleFeatures (by decide)
    (by decide)

/-- Claim C10: the unrounded score of `_calculate_score` lies strictly in
(0, 1) — the sigmoid never attains its bounds — and hence the confidence
computed from it (before rounding) is strictly below 1. -/
theorem score_strictly_between (m : Model) (fs : FeatureSet)
    (_h : missingFeatures fs = ∅) :
    0 < calculate_score m fs ∧ calculate_score m fs < 1
      ∧ confidenceOf (calculate_score m fs) < 1 := by
  have hs : calculate_score m fs
      = 1 / (1 + Real.exp (-((linear_sum m fs : ℚ) : ℝ) * 2)) := rfl
  have hexp : 0 < Real.exp (-((linear_sum m fs : ℚ) : ℝ) * 2) :=
    Real.exp_pos _
  have hden : (0:ℝ) < 1 + Real.exp (-((linear_sum m fs : ℚ) : ℝ) * 2) := by
    linarith
  have h0 : 0 < calculate_score m fs := by rw [hs]; positivity
  have h1 : calculate_score m fs < 1 := by
    rw [hs, div_lt_one hden]; linarith
  refine ⟨h0, h1, ?_⟩
  rw [confidenceOf, show ((THRESHOLD : ℚ) : ℝ) = 1/2 from by
    norm_num [THRESHOLD]]
  have habs : |calculate_score m fs - 1/2| < 1/2 := by
    rw [abs_lt]; constructor <;> linarith
  have hdiv : |calculate_score m fs - 1/2| / (1/2 : ℝ) < 1 := by
    rw [div_lt_one (by norm_num)]; linarith
  exact min_lt_iff.mpr (Or.inl hdiv)

theorem score_strictly_between_witness :
    0 < calculate_score demoModel sampleFeatures
      ∧ calculate_score demoModel sampleFeatures < 1
      ∧ confidenceOf (calculate_score demoModel sampleFeatures) < 1 :=
  score_strictly_between demoModel sampleFeatures (by decide)

/-- Claim C4: when any required feature is absent, `predict` fails closed
with a ValidationError carrying exactly the full set of missing names —
the error is returned before any numeric work; when all 8 names are present
(extra keys allowed), validation passes and a prediction is produced. -/
theorem validation_fails_closed (m : Model) (fs : FeatureSet) :
    (missingFeatures fs ≠ ∅ →
      predict m fs = Except.error ⟨missingFeatures fs⟩)
    ∧ (missingFeatures fs = ∅ → ∃ p, predict m fs = Except.ok p) := by
  constructor
  · intro hne
    have hv : validate_features fs = some ⟨missingFeatures fs⟩ := by
      rw [validate_features, if_neg hne]
    simp only [predict, hv]
  · intro he
    have hv : validate_features fs = none := by
      rw [validate_features, if_pos he]
    have hpred : predict m fs = Except.ok
        { score := round4 (calculate_score m fs)
          decision := decisionOf (calculate_score m fs)
          confidence := round4 (confidenceOf (calculate_score m fs))
          explanation := generate_explanation m fs
          model_version := VERSION } := by
      simp only [predict, hv]
    exact ⟨_, hpred⟩

theorem validation_fails_closed_witness :
    missingFeatures incompleteFeatures
        = {"credit_utilization", "payment_history_score",
           "account_age_months", "inquiry_count_6mo", "income_stability",
           "employment_length", "existing_accounts"}
      ∧ predict demoModel incompleteFeatures
        = Except.error ⟨missingFeatures incompleteFeatures⟩ :=
  ⟨by decide, (validation_fails_closed demoModel incompleteFeatures).1
    (by decide)⟩

/-- Claim C5: the decision policy of `predict` approves exactly when the
score is at least 0.5, computes confidence as min(|score - 0.5| / 0.5, 1),
and at the boundary values: confidence 0 at score 0.5, confidence 1 at
scores 0 and 1. -/
theorem decision_policy_spec (s : ℝ) (h0 : 0 ≤ s) (h1 : s ≤ 1) :
    (decisionOf s = "approved" ↔ (1/2 : ℝ) ≤ s)
      ∧ confidenceOf s = min (|s - 1/2| / (1/2)) 1
      ∧ (s = 1/2 → confidenceOf s = 0)
      ∧ (s = 0 → confidenceOf s = 1)
      ∧ (s = 1 → confidenceOf s = 1) := by
  have hth : ((THRESHOLD : ℚ) : ℝ) = 1/2 := by norm_num [THRESHOLD]
  refine ⟨?_, ?_, fun hs => ?_, fun hs => ?_, fun hs => ?_⟩
  · by_cases hc : (1/2 : ℝ) ≤ s
    · simp [decisionOf, hth, hc]
    · simp [decisionOf, hth, hc]
  · rw [confidenceOf, hth]
  · subst hs; norm_num [confidenceOf, hth]
  · subst hs
    rw [confidenceOf, hth,
      abs_of_nonpos (by norm_num : (0:ℝ) - 1/2 ≤ 0)]
    norm_num
  · subst hs
    rw [confidenceOf, hth,
      abs_of_nonneg (by norm_num : (0:ℝ) ≤ 1 - 1/2)]
    norm_num

theorem decision_policy_spec_witness :
    decisionOf (1/2) = "approved" ∧ confidenceOf (1/2) = 0 :=
  ⟨((decision_policy_spec (1/2) (by norm_num) (by norm_num)).1).mpr
      (by norm_num),
   (decision_policy_spec (1/2) (by norm_num) (by norm_num)).2.2.1 rfl⟩

/-- Claim C6: the oversight gate evaluates its rules in priority order with
first match winning — a score in the borderline band [0.4, 0.6] always
yields the borderline reason (no assumption on confidence is needed, so
this covers the case where confidence < 0.3 would also fire); otherwise
confidence below 0.3 yields the low-confidence reason; otherwise no review
is required. -/
theorem oversight_priority (p : CreditPrediction) :
    ((REVIEW_THRESHOLD_LOW : ℝ) ≤ p.score
        ∧ p.score ≤ (REVIEW_THRESHOLD_HIGH : ℝ) →
      requires_review p = (true, "Borderline score requires human review"))
    ∧ (¬((REVIEW_THRESHOLD_LOW : ℝ) ≤ p.score
          ∧ p.score ≤ (REVIEW_THRESHOLD_HIGH : ℝ)) →
        p.confidence < 3/10 →
        requires_review p = (true, "Low confidence prediction"))
    ∧ (¬((REVIEW_THRESHOLD_LOW : ℝ) ≤ p.score
          ∧ p.score ≤ (REVIEW_THRESHOLD_HIGH : ℝ)) →
        ¬(p.confidence < 3/10) →
        requires_review p = (false, "")) := by
  refine ⟨fun hb => ?_, fun hb hc => ?_, fun hb hc => ?_⟩
  · rw [requires_review, if_pos hb]
  · rw [requires_review, if_neg hb, if_pos hc]
  · rw [requires_review, if_neg hb, if_neg hc]

theorem oversight_priority_witness :
    ((REVIEW_THRESHOLD_LOW : ℝ) ≤ reviewSample.score
        ∧ reviewSample.score ≤ (REVIEW_THRESHOLD_HIGH : ℝ))
      ∧ reviewSample.confidence < 3/10
      ∧ requires_review reviewSample
        = (true, "Borderline score requires human review") := by
  have hb : (REVIEW_THRESHOLD_LOW : ℝ) ≤ reviewSample.score
      ∧ reviewSample.score ≤ (REVIEW_THRESHOLD_HIGH : ℝ) := by
    constructor <;>
      norm_num [reviewSample, REVIEW_THRESHOLD_LOW, REVIEW_THRESHOLD_HIGH]
  refine ⟨hb, ?_, (oversight_priority reviewSample).1 hb⟩
  norm_num [reviewSample]

/-- The explanation sort comparison is transitive. -/
theorem contributionLE_trans (a b c : String × ℚ) :
    contributionLE a b → contributionLE b c → contributionLE a c := by
  simp only [contributionLE, decide_eq_true_eq]
  exact fun h1 h2 => le_trans h2 h1

/-- The explanation sort comparison is total. -/
theorem contributionLE_total (a b : String × ℚ) :
    contributionLE a b || contributionLE b a := by
  rcases le_total |b.2| |a.2| with h | h <;> simp [contributionLE, h]

/-- Claim C7: the explanation output is sorted in descending order of
absolute contribution (each entry dominates the next in absolute value),
and any two entries with equal absolute contribution keep the weight
table's original iteration order — Python `sorted` is a stable sort, as is
`mergeSort` in the embedding. -/
theorem explanation_sorted_and_stable (m : Model) (fs : FeatureSet)
    (_h : missingFeatures fs = ∅) :
    (generate_explanation m fs).Pairwise (fun a b => |b.2| ≤ |a.2|)
    ∧ ∀ a b : String × ℚ, |a.2| = |b.2| →
        List.Sublist [a, b] ((contributions_unrounded m fs).map fun p =>
          (p.1, round4 p.2)) →
        List.Sublist [a, b] (generate_explanation m fs) := by
  constructor
  · have hs := @List.sorted_mergeSort (String × ℚ) contributionLE
      contributionLE_trans contributionLE_total
      ((contributions_unrounded m fs).map fun p => (p.1, round4 p.2))
    rw [generate_explanation]
    exact hs.imp fun hab => by
      simpa [contributionLE, decide_eq_true_eq] using hab
  · intro a b hab hsub
    rw [generate_explanation]
    exact @List.pair_sublist_mergeSort (String × ℚ) contributionLE a b _
      contributionLE_trans contributionLE_total
      (by simp [contributionLE, hab]) hsub

theorem explanation_sorted_and_stable_witness :
    missingFeatures sampleFeatures = ∅ ∧
      (generate_explanation demoModel sampleFeatures).Pairwise
        (fun a b => |b.2| ≤ |a.2|) :=
  ⟨by decide,
   (explanation_sorted_and_stable demoModel sampleFeatures (by decide)).1⟩

/-- One scoring step in state-passing style equals the pure step paired
with the unchanged dict. -/
theorem scoreStep_eq (a : ℚ) (fs : FeatureSet) (fw : String × ℚ) :
    scoreStep (a, fs) fw
      = (match fs.lookup fw.1 with
         | some v => a + fw.2 * normalize v
         | none => a, fs) := by
  cases h : fs.lookup fw.1 <;>
    simp [scoreStep, dictContains, dictGet, h]

/-- The state-passing scoring fold computes the pure fold and leaves the
dict unchanged. -/
theorem foldl_scoreStep_eq (fs : FeatureSet) :
    ∀ (ws : List (String × ℚ)) (a : ℚ),
      ws.foldl scoreStep (a, fs)
        = (ws.foldl
            (fun s fw =>
              match fs.lookup fw.1 with
              | some v => s + fw.2 * normalize v
              | none => s) a, fs)
  | [], _ => rfl
  | fw :: ws, a => by
      rw [List.foldl_cons, scoreStep_eq, foldl_scoreStep_eq fs ws,
        List.foldl_cons]

/-- One explanation step in state-passing style equals the pure step paired
with the unchanged dict. -/
theorem explStep_eq (acc : List (String × ℚ)) (fs : FeatureSet)
    (fw : String × ℚ) :
    explStep (acc, fs) fw
      = (acc ++ ((fs.lookup fw.1).map fun v =>
          (fw.1, round4 (fw.2 * normalize v))).toList, fs) := by
  cases h : fs.lookup fw.1 <;>
    simp [explStep, dictContains, dictGet, h]

/-- The state-passing explanation fold collects the rounded contributions
and leaves the dict unchanged. -/
theorem foldl_explStep_eq (fs : FeatureSet) :
    ∀ (ws : List (String × ℚ)) (acc : List (String × ℚ)),
      ws.foldl explStep (acc, fs)
        = (acc ++ ws.filterMap (fun fw =>
            (fs.lookup fw.1).map fun v =>
              (fw.1, round4 (fw.2 * normalize v))), fs)
  | [], _ => by simp
  | fw :: ws, acc => by
      rw [List.foldl_cons, explStep_eq, foldl_explStep_eq fs ws,
        List.filterMap_cons]
      cases h : fs.lookup fw.1 <;> simp [h]

/-- Collecting already-rounded contributions is the same as rounding the
unrounded contribution list pointwise. -/
theorem filterMap_round_eq (m : Model) (fs : FeatureSet) :
    (m.weights.filterMap fun fw =>
      (fs.lookup fw.1).map fun v => (fw.1, round4 (fw.2 * normalize v)))
    = (contributions_unrounded m fs).map fun p => (p.1, round4 p.2) := by
  rw [contributions_unrounded, List.map_filterMap]
  congr 1
  funext fw
  cases h : fs.lookup fw.1 <;> simp [h, Function.comp]

/-- The state-passing scorer agrees with the pure linear sum and preserves
the dict. -/
theorem calculate_scoreSt_eq (m : Model) (fs : FeatureSet) :
    calculate_scoreSt m fs = (linear_sum m fs, fs) := by
  rw [calculate_scoreSt, foldl_scoreStep_eq]
  rfl

/-- The state-passing explainer agrees with the pure explanation and
preserves the dict. -/
theorem generate_explanationSt_eq (m : Model) (fs : FeatureSet) :
    generate_explanationSt m fs = (generate_explanation m fs, fs) := by
  simp only [generate_explanationSt]
  rw [foldl_explStep_eq]
  simp only [List.nil_append]
  rw [filterMap_round_eq]
  rfl

/-- Claim C9: the prediction pipeline never mutates the feature dict.  In
the state-passing embedding, where every dict access is an explicit
read-only primitive and the dict state is threaded through validation,
scoring and explanation, each stage — and the whole of `predict` — returns
the feature dict unchanged; moreover the state-passing pipeline computes
exactly what the pure embedding computes. -/
theorem pipeline_preserves_features (m : Model) (fs : FeatureSet) :
    (validate_featuresSt fs).2 = fs
    ∧ (calculate_scoreSt m fs).2 = fs
    ∧ (generate_explanationSt m fs).2 = fs
    ∧ (predictSt m fs).2 = fs
    ∧ (predictSt m fs).1 = predict m fs := by
  have hval : validate_featuresSt fs = (validate_features fs, fs) := rfl
  have hmain : predictSt m fs = (predict m fs, fs) := by
    cases hc : validate_features fs with
    | some e =>
        have hv : validate_featuresSt fs = (some e, fs) := by
          rw [hval, hc]
        simp only [predictSt, predict, hv, hc]
    | none =>
        have hv : validate_featuresSt fs = (none, fs) := by
          rw [hval, hc]
        simp only [predictSt, predict, hv, hc, calculate_scoreSt_eq,
          generate_explanationSt_eq]
        rfl
  refine ⟨rfl, ?_, ?_, ?_, ?_⟩
  · rw [calculate_scoreSt_eq]
  · rw [generate_explanationSt_eq]
  · rw [hmain]
  · rw [hmain]

end CreditScoring
